import Mathlib

/-!
Verification of the quickstruct layout/codec engine.

The definitions below are a shallow embedding of the Python sources:
`quickstruct/common.py` (the field-type catalog), `quickstruct/quickstruct.py`
(the `DataStruct` codec), `quickstruct/field.py` (`FieldInfo`,
`StructField.__set__`) and `quickstruct/struct_builder.py` (`StructFlags`,
`StructBuilder`).  Bytes are `Nat` values kept below 256, byte strings are
`List Nat`, Python `str` values are modelled as their lists of Unicode code
points, machine integers use `Int`/`Nat` with explicit bounds, and raising an
exception is modelled with `Except Err`.
-/

/-- Python exception kinds raised by the embedded code paths. -/
inductive Err where
  | typeError
  | valueError
  | attributeError
  | structError
  | indexError
  | unicodeError
  deriving DecidableEq, Repr

/-- Runtime values that can be stored in a struct field: Python `int`,
`str` (as its code points), `bytes`, `list`, and `None`. -/
inductive Value where
  | int (n : Int)
  | str (cps : List Nat)
  | bytes (bs : List Nat)
  | list (vs : List Value)
  | none
  deriving Repr

mutual

/-- Structural equality test on values (Python `==` on the stored data). -/
def Value.beq : Value → Value → Bool
  | .int a, .int b => a == b
  | .str a, .str b => a == b
  | .bytes a, .bytes b => a == b
  | .list a, .list b => Value.beqList a b
  | .none, .none => true
  | _, _ => false

/-- Elementwise equality test on lists of values. -/
def Value.beqList : List Value → List Value → Bool
  | [], [] => true
  | x :: xs, y :: ys => Value.beq x y && Value.beqList xs ys
  | _, _ => false

end

mutual

theorem Value.beq_iff : ∀ a b : Value, Value.beq a b = true ↔ a = b
  | .int a, .int b => by simp [Value.beq]
  | .str a, .str b => by simp [Value.beq]
  | .bytes a, .bytes b => by simp [Value.beq]
  | .list a, .list b => by
      simp only [Value.beq, Value.list.injEq]
      exact Value.beqList_iff a b
  | .none, .none => by simp [Value.beq]
  | .int _, .str _ | .int _, .bytes _ | .int _, .list _ | .int _, .none
  | .str _, .int _ | .str _, .bytes _ | .str _, .list _ | .str _, .none
  | .bytes _, .int _ | .bytes _, .str _ | .bytes _, .list _ | .bytes _, .none
  | .list _, .int _ | .list _, .str _ | .list _, .bytes _ | .list _, .none
  | .none, .int _ | .none, .str _ | .none, .bytes _ | .none, .list _ => by
      simp [Value.beq]

theorem Value.beqList_iff : ∀ a b : List Value, Value.beqList a b = true ↔ a = b
  | [], [] => by simp [Value.beqList]
  | x :: xs, y :: ys => by
      simp only [Value.beqList, Bool.and_eq_true, List.cons.injEq]
      exact and_congr (Value.beq_iff x y) (Value.beqList_iff xs ys)
  | [], _ :: _ => by simp [Value.beqList]
  | _ :: _, [] => by simp [Value.beqList]

end

instance : DecidableEq Value := fun a b =>
  decidable_of_iff (Value.beq a b = true) (Value.beq_iff a b)

instance {α β : Type} [DecidableEq α] [DecidableEq β] : DecidableEq (Except α β) := fun a b =>
  match a, b with
  | .ok x, .ok y =>
      if h : x = y then .isTrue (by rw [h]) else .isFalse (by simp [h])
  | .error x, .error y =>
      if h : x = y then .isTrue (by rw [h]) else .isFalse (by simp [h])
  | .ok _, .error _ => .isFalse (by simp)
  | .error _, .ok _ => .isFalse (by simp)

/-- The field-type descriptors of `common.py` / `quickstruct.py`:
integer primitives of a given byte width and signedness, `char`,
`String` (fixed `String[k]` when the length is a truthy `some k`,
length-prefixed otherwise), `Array` (same length convention),
`Padding[k]`, and the address types `ptr[E]` / `ref[E]`. -/
inductive FType where
  | intT (width : Nat) (signed : Bool)
  | charT
  | stringT (length : Option Nat)
  | arrayT (elem : FType) (length : Option Nat)
  | paddingT (k : Nat)
  | ptrT (elem : FType)
  | refT (elem : FType)
  deriving DecidableEq, Repr

/-- The primitive `i8` of `common.py`. -/
def i8 : FType := .intT 1 true

/-- The primitive `u8` of `common.py`. -/
def u8 : FType := .intT 1 false

/-- The primitive `i16` of `common.py`. -/
def i16 : FType := .intT 2 true

/-- The primitive `u16` of `common.py`. -/
def u16 : FType := .intT 2 false

/-- The primitive `i32` of `common.py`. -/
def i32 : FType := .intT 4 true

/-- The primitive `u32` of `common.py`. -/
def u32 : FType := .intT 4 false

/-- The primitive `i64` of `common.py`. -/
def i64 : FType := .intT 8 true

/-- The primitive `u64` of `common.py`. -/
def u64 : FType := .intT 8 false

/-- Python truthiness of a `__length__` attribute that is either `None`
or an `int`: `None` and `0` are falsy. -/
def truthyLen : Option Nat → Bool
  | Option.none => false
  | some k => k != 0

/-- Embeds `cls.__length__ if cls.__length__ else -1` from `String.size`
and `Array.size` in `common.py`. -/
def lenOrDynamic (l : Option Nat) : Int :=
  if truthyLen l then (l.getD 0 : Nat) else -1

/-- The `size` contract of each type descriptor in `common.py`
(`-1` is the dynamic marker).  Note that `Array.size` returns the raw
`__length__` element count, exactly as the source does. -/
def sizeF : FType → Int
  | .intT w _ => w
  | .charT => 1
  | .stringT l => lenOrDynamic l
  | .arrayT _ l => lenOrDynamic l
  | .paddingT k => k
  | .ptrT _ => 8
  | .refT _ => 8

/-- Embeds `Type.is_dynamic_size` from `common.py`: `size() == -1`. -/
def FType.isDynamicSize (t : FType) : Bool := sizeF t == -1

/-- The `alignment` contract of each type descriptor in `common.py`:
width for the integer primitives, 1 for `char`/`String`/`Padding`,
the element alignment for `Array`, and 4 for `Pointer`/`Reference`. -/
def alignmentF : FType → Nat
  | .intT w _ => w
  | .charT => 1
  | .stringT _ => 1
  | .arrayT e _ => alignmentF e
  | .paddingT _ => 1
  | .ptrT _ => 4
  | .refT _ => 4

/-- A type is from the catalog: primitives have width 1, 2, 4 or 8 and
`Padding[k]` has `k ≥ 1` (the spec's padding types carry a byte count
`k ≥ 1`). -/
def wellFormed : FType → Bool
  | .intT w _ => w == 1 || w == 2 || w == 4 || w == 8
  | .charT => true
  | .stringT _ => true
  | .arrayT e _ => wellFormed e
  | .paddingT k => 1 ≤ k
  | .ptrT e => wellFormed e
  | .refT e => wellFormed e

/-- Little-endian bytes of `n mod 256^w`, as produced by `struct.pack`
for the fixed-width integer formats on a little-endian host. -/
def leBytes : Nat → Nat → List Nat
  | 0, _ => []
  | w + 1, n => n % 256 :: leBytes w (n / 256)

/-- The integer denoted by a little-endian byte list, as recovered by
`struct.unpack`. -/
def leValue : List Nat → Nat
  | [] => 0
  | b :: bs => b + 256 * leValue bs

/-- Embeds `BytesIO.read(k)` on the remaining stream: at most `k` bytes
are returned (fewer when the stream is short); a negative count reads
everything. -/
def readPy (k : Int) (bs : List Nat) : List Nat × List Nat :=
  if k < 0 then (bs, []) else (bs.take k.toNat, bs.drop k.toNat)

/-- UTF-8 encoding of one code point, as `str.encode()` produces it;
surrogates and out-of-range code points raise `UnicodeEncodeError`. -/
def utf8EncodeCp (n : Nat) : Except Err (List Nat) :=
  if n < 0x80 then .ok [n]
  else if n < 0x800 then .ok [0xC0 + n / 64, 0x80 + n % 64]
  else if n < 0x10000 then
    if 0xD800 ≤ n ∧ n < 0xE000 then .error .unicodeError
    else .ok [0xE0 + n / 4096, 0x80 + n / 64 % 64, 0x80 + n % 64]
  else if n < 0x110000 then
    .ok [0xF0 + n / 262144, 0x80 + n / 4096 % 64, 0x80 + n / 64 % 64, 0x80 + n % 64]
  else .error .unicodeError

/-- UTF-8 encoding of a whole string (list of code points). -/
def utf8Encode : List Nat → Except Err (List Nat)
  | [] => .ok []
  | c :: cs => do
      let b ← utf8EncodeCp c
      let bs ← utf8Encode cs
      .ok (b ++ bs)

/-- Strict UTF-8 decoding of one code point (as `bytes.decode()`):
continuation bytes, overlong forms, surrogates and out-of-range values
are rejected. -/
def utf8DecodeCp : List Nat → Except Err (Nat × List Nat)
  | [] => .error .unicodeError
  | b0 :: bs =>
    if b0 < 0x80 then .ok (b0, bs)
    else if b0 < 0xC2 then .error .unicodeError
    else if b0 < 0xE0 then
      match bs with
      | b1 :: bs1 =>
          if 0x80 ≤ b1 ∧ b1 < 0xC0 then .ok ((b0 - 0xC0) * 64 + (b1 - 0x80), bs1)
          else .error .unicodeError
      | _ => .error .unicodeError
    else if b0 < 0xF0 then
      match bs with
      | b1 :: b2 :: bs2 =>
          let n := (b0 - 0xE0) * 4096 + (b1 - 0x80) * 64 + (b2 - 0x80)
          if 0x80 ≤ b1 ∧ b1 < 0xC0 ∧ 0x80 ≤ b2 ∧ b2 < 0xC0 ∧ 0x800 ≤ n ∧
              ¬(0xD800 ≤ n ∧ n < 0xE000) then .ok (n, bs2)
          else .error .unicodeError
      | _ => .error .unicodeError
    else if b0 < 0xF5 then
      match bs with
      | b1 :: b2 :: b3 :: bs3 =>
          let n := (b0 - 0xF0) * 262144 + (b1 - 0x80) * 4096 + (b2 - 0x80) * 64 + (b3 - 0x80)
          if 0x80 ≤ b1 ∧ b1 < 0xC0 ∧ 0x80 ≤ b2 ∧ b2 < 0xC0 ∧ 0x80 ≤ b3 ∧ b3 < 0xC0 ∧
              0x10000 ≤ n ∧ n < 0x110000 then .ok (n, bs3)
          else .error .unicodeError
      | _ => .error .unicodeError
    else .error .unicodeError

/-- Fuelled UTF-8 decoding loop; each step consumes at least one byte,
so fuel equal to the byte count suffices. -/
def utf8DecodeAux : Nat → List Nat → Except Err (List Nat)
  | _, [] => .ok []
  | 0, _ :: _ => .error .unicodeError
  | fuel + 1, bs => do
      let (c, rest) ← utf8DecodeCp bs
      let cs ← utf8DecodeAux fuel rest
      .ok (c :: cs)

/-- Embeds `bytes.decode()`: strict UTF-8 decoding of a byte string
into its code points. -/
def pyDecode (bs : List Nat) : Except Err (List Nat) :=
  utf8DecodeAux bs.length bs

/-- Concatenates the encodings of a list of values, stopping at the
first failing element (the semantics of `b"".join(... for v in values)`). -/
def encodeSeq (f : Value → Except Err (List Nat)) : List Value → Except Err (List Nat)
  | [] => .ok []
  | v :: vs => do
      let b ← f v
      let bs ← encodeSeq f vs
      .ok (b ++ bs)

/-- Runs a decoder `n` times against the stream, collecting the values
(the semantics of `[E.from_bytes(data) for _ in range(n)]`). -/
def decodeMany (dec : List Nat → Except Err (Value × List Nat)) :
    Nat → List Nat → Except Err (List Value × List Nat)
  | 0, bs => .ok ([], bs)
  | n + 1, bs => do
      let (v, bs1) ← dec bs
      let (vs, bs2) ← decodeMany dec n bs1
      .ok (v :: vs, bs2)

/-- Embeds `to_bytes` of each type descriptor (`common.py` /
`quickstruct.py`).  Integers and the address word are `struct.pack`
fixed-width formats with a range check (`struct.error` on violation);
`String[k]` packs the UTF-8 encoding into exactly `k` bytes, padding
with zeros or truncating as the `ks` format does; the length-prefixed
string writes a 4-byte length equal to the character count and then the
encoding packed to that many bytes; fixed arrays check the element
count; `Padding[k]` writes `k` zero bytes; `ptr`/`ref` write the
address as an 8-byte word.  Values outside the format's domain raise
the same exception kind as the Python code. -/
def typeToBytes : FType → Value → Except Err (List Nat)
  | .intT w signed, v =>
      match v with
      | .int n =>
          if signed then
            if -(2 ^ (8 * w - 1) : Int) ≤ n ∧ n < 2 ^ (8 * w - 1) then
              .ok (leBytes w ((n % (2 ^ (8 * w))).toNat))
            else .error .structError
          else
            if 0 ≤ n ∧ n < 2 ^ (8 * w) then .ok (leBytes w n.toNat)
            else .error .structError
      | _ => .error .structError
  | .charT, v =>
      match v with
      | .bytes l => if l.length = 1 then .ok l else .error .structError
      | _ => .error .structError
  | .stringT l, v =>
      if truthyLen l then
        match v with
        | .str cps => do
            let enc ← utf8Encode cps
            .ok (enc.take (l.getD 0) ++ List.replicate (l.getD 0 - enc.length) 0)
        | _ => .error .attributeError
      else
        match v with
        | .str cps => do
            let enc ← utf8Encode cps
            if cps.length < 2 ^ 31 then
              .ok (leBytes 4 cps.length ++
                (enc.take cps.length ++ List.replicate (cps.length - enc.length) 0))
            else .error .structError
        | .bytes _ => .error .attributeError
        | .list _ => .error .attributeError
        | _ => .error .typeError
  | .arrayT e l, v =>
      match v with
      | .list vs =>
          if truthyLen l ∧ vs.length ≠ l.getD 0 then .error .valueError
          else do
            let body ← encodeSeq (typeToBytes e) vs
            if truthyLen l then .ok body
            else
              if vs.length < 2 ^ 31 then .ok (leBytes 4 vs.length ++ body)
              else .error .structError
      | _ => .error .typeError
  | .paddingT k, _ => .ok (List.replicate k 0)
  | .ptrT _, v =>
      match v with
      | .int n => if 0 ≤ n ∧ n < 2 ^ 64 then .ok (leBytes 8 n.toNat) else .error .structError
      | _ => .error .structError
  | .refT _, v =>
      match v with
      | .int n => if 0 ≤ n ∧ n < 2 ^ 64 then .ok (leBytes 8 n.toNat) else .error .structError
      | _ => .error .structError

/-- Embeds `from_bytes` of each type descriptor against a byte stream,
returning the decoded value and the unconsumed rest.  `struct.unpack`
raises when the read comes back short; `String[k]` decodes whatever
`read(k)` returned; the length-prefixed variants first read a 4-byte
signed count; `Padding[k]` evaluates `unpack(...)[0]` on an empty
tuple, an `IndexError`; `Pointer.from_bytes`/`Reference.from_bytes`
delegate to the element type's decoder at the current position. -/
def typeFromBytes : FType → List Nat → Except Err (Value × List Nat)
  | .intT w signed, bs =>
      let chunk := bs.take w
      if chunk.length = w then
        let m := leValue chunk
        .ok (.int (if signed ∧ 2 ^ (8 * w - 1) ≤ m then (m : Int) - 2 ^ (8 * w) else (m : Int)),
          bs.drop w)
      else .error .structError
  | .charT, bs =>
      match bs with
      | b :: rest => .ok (.bytes [b], rest)
      | [] => .error .structError
  | .stringT l, bs =>
      if truthyLen l then do
        let cps ← pyDecode (bs.take (l.getD 0))
        .ok (.str cps, bs.drop (l.getD 0))
      else
        let chunk := bs.take 4
        if chunk.length = 4 then
          let m := leValue chunk
          let n : Int := if 2 ^ 31 ≤ m then (m : Int) - 2 ^ 32 else (m : Int)
          let (payload, rest) := readPy n (bs.drop 4)
          match pyDecode payload with
          | .ok cps => .ok (.str cps, rest)
          | .error e => .error e
        else .error .structError
  | .arrayT e l, bs =>
      if truthyLen l then do
        let (vs, rest) ← decodeMany (typeFromBytes e) (l.getD 0) bs
        .ok (.list vs, rest)
      else
        let chunk := bs.take 4
        if chunk.length = 4 then
          let m := leValue chunk
          let n : Int := if 2 ^ 31 ≤ m then (m : Int) - 2 ^ 32 else (m : Int)
          match decodeMany (typeFromBytes e) n.toNat (bs.drop 4) with
          | .ok (vs, rest) => .ok (.list vs, rest)
          | .error e => .error e
        else .error .structError
  | .paddingT _, _ => .error .indexError
  | .ptrT e, bs => typeFromBytes e bs
  | .refT e, bs => typeFromBytes e bs

/-- Embeds the encoding loop of `DataStruct.to_bytes`: each field's
value is fetched with `getattr(self, field, None)` and encoded by its
type, and the results are concatenated. -/
def structToBytesCore (fields : List (String × FType)) (inst : String → Option Value) :
    Except Err (List Nat) :=
  match fields with
  | [] => .ok []
  | (nm, t) :: fs => do
      let b ← typeToBytes t ((inst nm).getD .none)
      let bs ← structToBytesCore fs inst
      .ok (b ++ bs)

/-- Embeds `DataStruct.to_bytes`: the encoding loop wrapped in
`except AttributeError: raise ValueError(...)`. -/
def structToBytes (fields : List (String × FType)) (inst : String → Option Value) :
    Except Err (List Nat) :=
  match structToBytesCore fields inst with
  | .error .attributeError => .error .valueError
  | r => r

/-- Embeds `DataStruct.from_bytes`: decode each field in declaration
order from a single cursor and assign it by name. -/
def structFromBytes (fields : List (String × FType)) (bs : List Nat) :
    Except Err (List (String × Value)) :=
  match fields with
  | [] => .ok []
  | (nm, t) :: fs => do
      let (v, rest) ← typeFromBytes t bs
      let l ← structFromBytes fs rest
      .ok ((nm, v) :: l)

/-- Embeds `FieldInfo` from `field.py`: a name, a type and an offset
that is 0 until the builder assigns it. -/
structure BField where
  name : String
  type : FType
  offset : Int := 0
  deriving DecidableEq, Repr

/-- Embeds the mutable state of `StructBuilder` from
`struct_builder.py`: the field list, the `_size` attribute and the
`_has_dynamic_fields` flag. -/
structure Builder where
  fields : List BField
  size : Int
  hasDynamic : Bool
  deriving DecidableEq, Repr

/-- Embeds `StructBuilder.__init__`. -/
def Builder.start : Builder := ⟨[], 0, false⟩

/-- Embeds `StructBuilder.add_field`: record whether the type is
dynamic and append the field. -/
def Builder.addField (b : Builder) (nm : String) (t : FType) : Builder :=
  { b with
    hasDynamic := b.hasDynamic || t.isDynamicSize
    fields := b.fields ++ [{ name := nm, type := t }] }

/-- Adds a list of `(name, type)` declarations in order. -/
def Builder.addFields (b : Builder) (fs : List (String × FType)) : Builder :=
  fs.foldl (fun b p => b.addField p.1 p.2) b

/-- Embeds `StructBuilder.__get_padding`: `-offset & (alignment - 1)`,
which for the power-of-two alignments the builder uses equals the
distance from `offset` up to the next multiple of `alignment`. -/
def getPadding (alignment : Nat) (offset : Int) : Nat :=
  (((-offset) % (alignment : Int)).toNat)

/-- The generated name of the `i`-th inter-field padding
(`_pad_format.format(paddings)`). -/
def padName (i : Nat) : String := "__pad_" ++ toString i ++ "__"

/-- Embeds `StructBuilder.__align_fields_by_alignment`: walk the
fields, inserting a synthetic `Padding[pad]` before any field that
would start off the `alignment` boundary. -/
def Builder.alignFieldsByAlignment (b : Builder) (alignment : Nat) : Builder :=
  let step := fun (acc : List BField × Nat × Int) (f : BField) =>
    let (result, paddings, offset) := acc
    let padding := getPadding alignment offset
    let (result, paddings) :=
      if padding ≠ 0 then
        (result ++ [{ name := padName paddings, type := .paddingT padding }], paddings + 1)
      else (result, paddings)
    (result ++ [f], paddings, offset + sizeF f.type + padding)
  { b with fields := (b.fields.foldl step ([], 0, 0)).1 }

/-- Embeds `StructBuilder.__align_fields_by_type`: the same walk, each
field aligned to its own type's alignment. -/
def Builder.alignFieldsByType (b : Builder) : Builder :=
  let step := fun (acc : List BField × Nat × Int) (f : BField) =>
    let (result, paddings, offset) := acc
    let padding := getPadding (alignmentF f.type) offset
    let (result, paddings) :=
      if padding ≠ 0 then
        (result ++ [{ name := padName paddings, type := .paddingT padding }], paddings + 1)
      else (result, paddings)
    (result ++ [f], paddings, offset + sizeF f.type + padding)
  { b with fields := (b.fields.foldl step ([], 0, 0)).1 }

/-- Embeds the `is_dynamic_size` property of `StructBuilder`. -/
def Builder.isDynamicSize (b : Builder) : Bool := b.hasDynamic || b.size == -1

/-- Embeds `StructBuilder.__pad_to_alignment`: append one trailing
`Padding[pad]` field when `__get_padding(alignment, self._size)` is
nonzero.  Note it reads the stored `_size` attribute, not the size of
the current field list. -/
def Builder.padToAlignment (b : Builder) (alignment : Nat) : Builder :=
  if b.isDynamicSize then b
  else
    let padding := getPadding alignment b.size
    if padding ≠ 0 then
      { b with fields := b.fields ++ [{ name := "__pad___", type := .paddingT padding }] }
    else b

/-- The maximum field alignment, `max(field.type.alignment for field in
self._fields)`. -/
def maxAlignment (fs : List BField) : Nat :=
  fs.foldl (fun m f => max m (alignmentF f.type)) 0

/-- Embeds `StructBuilder.align_fields`: a no-op on an empty builder or
one holding a dynamic field; otherwise align on the explicit boundary
when the argument is truthy, else on each field's own alignment, and
finally call `__pad_to_alignment`. -/
def Builder.alignFields (b : Builder) (alignment : Option Nat) : Builder :=
  if b.fields.isEmpty || b.hasDynamic then b
  else
    match alignment with
    | some a =>
        if a ≠ 0 then (b.alignFieldsByAlignment a).padToAlignment a
        else ((b.alignFieldsByType).padToAlignment (maxAlignment b.alignFieldsByType.fields))
    | Option.none =>
        ((b.alignFieldsByType).padToAlignment (maxAlignment b.alignFieldsByType.fields))

/-- The comparison `sorted(..., key=lambda field: field.type.size,
reverse=True)` sorts by: `f` may come before `g` when `g`'s size is at
most `f`'s. -/
def bySizeDesc (f g : BField) : Prop := sizeF g.type ≤ sizeF f.type

instance : DecidableRel bySizeDesc := fun f g => by
  unfold bySizeDesc; infer_instance

instance : IsTotal BField bySizeDesc := ⟨fun f g => le_total (sizeF g.type) (sizeF f.type)⟩

instance : IsTrans BField bySizeDesc := ⟨fun _ _ _ h1 h2 => le_trans h2 h1⟩

/-- Embeds `StructBuilder.reorder_fields`: partition into sized and
dynamic fields preserving order, stably sort the sized ones by
descending size (Python's `sorted` is stable), and append the dynamic
ones. -/
def Builder.reorderFields (b : Builder) : Builder :=
  { b with fields :=
      List.insertionSort bySizeDesc (b.fields.filter fun f => ¬ f.type.isDynamicSize) ++
      b.fields.filter fun f => f.type.isDynamicSize }

/-- Embeds `StructBuilder.__recalculate_offsets`: assign each field the
running offset and advance it by the field's size. -/
def assignOffsets (offset : Int) : List BField → List BField
  | [] => []
  | f :: fs => { f with offset := offset } :: assignOffsets (offset + sizeF f.type) fs

/-- Embeds `StructBuilder.__recalculate_size`: `-1` when a dynamic
field was ever added, else the sum of the field sizes. -/
def Builder.recalcSize (b : Builder) : Builder :=
  if b.hasDynamic then { b with size := -1 }
  else { b with size := (b.fields.map fun f => sizeF f.type).sum }

/-- Embeds `StructBuilder.build`: recompute offsets, then the size, and
return the fields (read here through the resulting state). -/
def Builder.build (b : Builder) : Builder :=
  Builder.recalcSize { b with fields := assignOffsets 0 b.fields }

/-- The `StructFlags` value `Align1Byte` (also `Packed`). -/
def align1Byte : Nat := 0

/-- The `StructFlags` value `Align2Bytes`. -/
def align2Bytes : Nat := 1

/-- The `StructFlags` value `Align4Bytes`. -/
def align4Bytes : Nat := 2

/-- The `StructFlags` value `Align8Bytes`. -/
def align8Bytes : Nat := 4

/-- The `StructFlags` value `AlignAuto`. -/
def alignAuto : Nat := 8

/-- The `StructFlags` value `AlignmentMask`
(`Align1Byte | Align2Bytes | Align4Bytes | Align8Bytes`). -/
def alignmentMask : Nat := 7

/-- Embeds the alignment computation of `FixedStructBuilder.__init__`:
`1 << (flags & AlignmentMask) if not flags & AlignAuto else 0`. -/
def alignmentFromFlags (flags : Nat) : Nat :=
  if flags &&& alignAuto ≠ 0 then 0 else 1 <<< (flags &&& alignmentMask)

/-- Short-circuit conjunction over a list, the semantics of
`all(isinstance(value, E) for value in instance)`: evaluation stops at
the first `False`, and an exception from an element check propagates. -/
def allAccepts (f : Value → Except Err Bool) : List Value → Except Err Bool
  | [] => .ok true
  | v :: vs => do
      let b ← f v
      if b then allAccepts f vs else .ok false

/-- Embeds `isinstance(value, T)` through `TypeMeta.__instancecheck__`
and each type's `__is_instance__` (`common.py`): the integer
primitives accept `int`, `char` accepts `bytes`, strings accept `str`,
arrays check every element of an iterable (a non-iterable raises
`TypeError`; iterating a `str` yields its one-character strings and
iterating `bytes` yields its integers).  `Padding`, `Pointer` and
`Reference` never set the `__type__` attribute that
`Primitive.__is_instance__` reads, so the check raises
`AttributeError`. -/
def acceptsE : FType → Value → Except Err Bool
  | .intT _ _, v => .ok (match v with | .int _ => true | _ => false)
  | .charT, v => .ok (match v with | .bytes _ => true | _ => false)
  | .stringT _, v => .ok (match v with | .str _ => true | _ => false)
  | .arrayT e _, v =>
      match v with
      | .list vs => allAccepts (acceptsE e) vs
      | .str cps => allAccepts (acceptsE e) (cps.map fun c => .str [c])
      | .bytes bs => allAccepts (acceptsE e) (bs.map Value.int)
      | _ => .error .typeError
  | .paddingT _, _ => .error .attributeError
  | .ptrT _, _ => .error .attributeError
  | .refT _, _ => .error .attributeError

/-- Embeds `StructField.__set__` from `field.py`, applied to an
instance's attribute store: `isinstance` is consulted and a rejected
value raises `TypeError`; an accepted value is stored under the
field's name. -/
def setStructField (inst : String → Option Value) (nm : String) (t : FType) (v : Value) :
    Except Err (String → Option Value) := do
  let b ← acceptsE t v
  if b then .ok (fun n => if n = nm then some v else inst n)
  else .error .typeError

/-- Field types whose `isinstance` check is defined: everything except
`Padding`, `Pointer` and `Reference` (recursively through arrays). -/
def domainSafe : FType → Bool
  | .intT _ _ => true
  | .charT => true
  | .stringT _ => true
  | .arrayT e _ => domainSafe e
  | .paddingT _ => false
  | .ptrT _ => false
  | .refT _ => false

/-- The number of UTF-8 bytes of one code point. -/
def cpLen (n : Nat) : Nat :=
  if n < 0x80 then 1 else if n < 0x800 then 2 else if n < 0x10000 then 3 else 4

/-- The UTF-8 byte length of a string (list of code points). -/
def utf8Len (cps : List Nat) : Nat := (cps.map cpLen).sum

/-- A code point `str.encode()` accepts: a Unicode scalar value
(below `0x110000` and not a surrogate). -/
def validCp (n : Nat) : Bool := n < 0x110000 && !(0xD800 ≤ n && n < 0xE000)

/-- The values a type encodes and decodes back without loss: integers
within the format's range, one-byte `bytes` for `char`, fixed strings
whose UTF-8 encoding is exactly the declared byte count, length-prefixed
strings of single-byte characters, arrays of valid elements with the
declared element count, and nothing for `Padding` (its `from_bytes`
raises `IndexError`) or `ptr`/`ref` (whose decode does not return the
encoded address). -/
def validEnc : FType → Value → Bool
  | .intT w signed, v =>
      match v with
      | .int n =>
          1 ≤ w &&
            (if signed then decide (-(2 ^ (8 * w - 1) : Int) ≤ n ∧ n < 2 ^ (8 * w - 1))
             else decide (0 ≤ n ∧ n < 2 ^ (8 * w)))
      | _ => false
  | .charT, v =>
      match v with
      | .bytes l => l.length == 1 && l.all (· < 256)
      | _ => false
  | .stringT l, v =>
      match v with
      | .str cps =>
          if truthyLen l then cps.all validCp && utf8Len cps == l.getD 0
          else cps.all (· < 0x80) && decide (cps.length < 2 ^ 31)
      | _ => false
  | .arrayT e l, v =>
      match v with
      | .list vs =>
          (if truthyLen l then vs.length == l.getD 0
           else decide (vs.length < 2 ^ 31)) && vs.all (validEnc e)
      | _ => false
  | .paddingT _, _ => false
  | .ptrT _, _ => false
  | .refT _, _ => false

theorem leBytes_length (w : Nat) : ∀ n, (leBytes w n).length = w := by
  induction w with
  | zero => intro n; rfl
  | succ w ih => intro n; simp [leBytes, ih]

theorem leValue_leBytes (w : Nat) : ∀ n, n < 2 ^ (8 * w) → leValue (leBytes w n) = n := by
  induction w with
  | zero => intro n h; simp at h; simp [h, leBytes, leValue]
  | succ w ih =>
      intro n h
      have hlt : n / 256 < 2 ^ (8 * w) := by
        have : n < 2 ^ (8 * w) * 256 := by
          have : 2 ^ (8 * (w + 1)) = 2 ^ (8 * w) * 256 := by ring
          omega
        omega
      simp only [leBytes, leValue, ih (n / 256) hlt]
      omega

theorem take_len_append (l r : List Nat) : (l ++ r).take l.length = l := by
  induction l with
  | nil => rfl
  | cons x xs ih => simp [ih]

theorem drop_len_append (l r : List Nat) : (l ++ r).drop l.length = r := by
  induction l with
  | nil => rfl
  | cons x xs ih => simp [ih]


theorem int_roundtrip (w : Nat) (signed : Bool) (n : Int)
    (h : validEnc (.intT w signed) (.int n) = true) :
    ∃ enc, typeToBytes (.intT w signed) (.int n) = .ok enc ∧
      ∀ rest, typeFromBytes (.intT w signed) (enc ++ rest) = .ok (.int n, rest) := by
  obtain ⟨M, hM, hMi⟩ : ∃ M : Nat, M = 2 ^ (8 * w) ∧ (M : Int) = 2 ^ (8 * w) :=
    ⟨2 ^ (8 * w), rfl, by push_cast; ring⟩
  obtain ⟨P, hP, hPi⟩ : ∃ P : Nat, P = 2 ^ (8 * w - 1) ∧ (P : Int) = 2 ^ (8 * w - 1) :=
    ⟨2 ^ (8 * w - 1), rfl, by push_cast; ring⟩
  cases signed with
  | false =>
      simp only [validEnc, Bool.and_eq_true, decide_eq_true_eq, Bool.false_eq_true,
        if_false] at h
      obtain ⟨hw, h0, h1⟩ := h
      refine ⟨leBytes w n.toNat, ?_, ?_⟩
      · simp only [typeToBytes, Bool.false_eq_true, if_false, if_pos (And.intro h0 h1)]
      · intro rest
        have hlen : (leBytes w n.toNat).length = w := leBytes_length w _
        have htk : (leBytes w n.toNat ++ rest).take w = leBytes w n.toNat := by
          have e := take_len_append (leBytes w n.toNat) rest
          rwa [hlen] at e
        have hdr : (leBytes w n.toNat ++ rest).drop w = rest := by
          have e := drop_len_append (leBytes w n.toNat) rest
          rwa [hlen] at e
        have hbound : n.toNat < 2 ^ (8 * w) := by omega
        simp only [typeFromBytes, htk, hdr, hlen, leValue_leBytes w n.toNat hbound,
          Bool.false_eq_true, false_and, if_false, if_true, eq_self_iff_true,
          Int.toNat_of_nonneg h0]
  | true =>
      simp only [validEnc, Bool.and_eq_true, decide_eq_true_eq, if_true] at h
      obtain ⟨hw, h0, h1⟩ := h
      have hMP : M = P * 2 := by
        rw [hM, hP, ← pow_succ]
        congr 1
        omega
      have hWpos : (0 : Int) < 2 ^ (8 * w) := by positivity
      have hemod0 : 0 ≤ n % (2 ^ (8 * w)) := Int.emod_nonneg n (by omega)
      have hemodW : n % (2 ^ (8 * w)) < 2 ^ (8 * w) := Int.emod_lt_of_pos n hWpos
      have hchar : n % (2 ^ (8 * w)) = if 0 ≤ n then n else n + 2 ^ (8 * w) := by
        by_cases hn : 0 ≤ n
        · rw [if_pos hn]
          exact Int.emod_eq_of_lt hn (by omega)
        · rw [if_neg hn]
          have e1 : (n + 2 ^ (8 * w)) % (2 ^ (8 * w)) = n % (2 ^ (8 * w)) := by
            conv_lhs => rw [show n + (2 : Int) ^ (8 * w) = n + 2 ^ (8 * w) * 1 by ring]
            rw [Int.add_mul_emod_self_left]
          have e2 : (n + 2 ^ (8 * w)) % (2 ^ (8 * w)) = n + 2 ^ (8 * w) :=
            Int.emod_eq_of_lt (by omega) (by omega)
          omega
      refine ⟨leBytes w ((n % (2 ^ (8 * w))).toNat), ?_, ?_⟩
      · simp only [typeToBytes, if_true, eq_self_iff_true, if_pos (And.intro h0 h1)]
      · intro rest
        have hlen : (leBytes w ((n % (2 ^ (8 * w))).toNat)).length = w := leBytes_length w _
        have htk : (leBytes w ((n % (2 ^ (8 * w))).toNat) ++ rest).take w =
            leBytes w ((n % (2 ^ (8 * w))).toNat) := by
          have e := take_len_append (leBytes w ((n % (2 ^ (8 * w))).toNat)) rest
          rwa [hlen] at e
        have hdr : (leBytes w ((n % (2 ^ (8 * w))).toNat) ++ rest).drop w = rest := by
          have e := drop_len_append (leBytes w ((n % (2 ^ (8 * w))).toNat)) rest
          rwa [hlen] at e
        have hbound : (n % (2 ^ (8 * w))).toNat < 2 ^ (8 * w) := by omega
        simp only [typeFromBytes, htk, hdr, hlen, leValue_leBytes w _ hbound,
          eq_self_iff_true, if_true, true_and]
        by_cases hneg : 0 ≤ n
        · have hval : (((n % (2 ^ (8 * w))).toNat : Int)) = n := by omega
          rw [if_neg (by omega)]
          simp only [hval]
        · have hval : (((n % (2 ^ (8 * w))).toNat : Int)) - 2 ^ (8 * w) = n := by omega
          rw [if_pos (by omega)]
          simp only [hval]

@[simp] theorem ok_bind {α β : Type} (a : α) (f : α → Except Err β) :
    (Except.ok a >>= f) = f a := rfl

@[simp] theorem error_bind {α β : Type} (e : Err) (f : α → Except Err β) :
    ((Except.error e : Except Err α) >>= f) = Except.error e := rfl

theorem cpLen_pos (c : Nat) : 1 ≤ cpLen c := by
  unfold cpLen
  split <;> try omega
  split <;> try omega
  split <;> omega

theorem utf8EncodeCp_ok (c : Nat) (h : validCp c = true) :
    ∃ bs, utf8EncodeCp c = .ok bs ∧ bs.length = cpLen c := by
  have hv : c < 0x110000 ∧ ¬(0xD800 ≤ c ∧ c < 0xE000) := by
    simp only [validCp, Bool.and_eq_true, decide_eq_true_eq, Bool.not_eq_true',
      Bool.and_eq_false_iff, decide_eq_false_iff_not, not_lt] at h
    rcases h with ⟨h1, h2 | h2⟩ <;> exact ⟨h1, by omega⟩
  by_cases hc1 : c < 0x80
  · exact ⟨[c], by simp [utf8EncodeCp, hc1], by simp [cpLen, hc1]⟩
  · by_cases hc2 : c < 0x800
    · exact ⟨[0xC0 + c / 64, 0x80 + c % 64],
        by simp [utf8EncodeCp, hc1, hc2], by simp [cpLen, hc1, hc2]⟩
    · by_cases hc3 : c < 0x10000
      · refine ⟨[0xE0 + c / 4096, 0x80 + c / 64 % 64, 0x80 + c % 64], ?_, ?_⟩
        · simp [utf8EncodeCp, hc1, hc2, hc3, hv.2]
        · simp [cpLen, hc1, hc2, hc3]
      · refine ⟨[0xF0 + c / 262144, 0x80 + c / 4096 % 64, 0x80 + c / 64 % 64, 0x80 + c % 64],
          ?_, ?_⟩
        · simp [utf8EncodeCp, hc1, hc2, hc3, hv.1]
        · simp [cpLen, hc1, hc2, hc3]

theorem utf8Len_cons (c : Nat) (cs : List Nat) : utf8Len (c :: cs) = cpLen c + utf8Len cs := by
  simp [utf8Len]

theorem utf8Encode_ok (cps : List Nat) (h : cps.all validCp = true) :
    ∃ bs, utf8Encode cps = .ok bs ∧ bs.length = utf8Len cps := by
  induction cps with
  | nil => exact ⟨[], rfl, rfl⟩
  | cons c cs ih =>
      simp only [List.all_cons, Bool.and_eq_true] at h
      obtain ⟨b1, hb1, hl1⟩ := utf8EncodeCp_ok c h.1
      obtain ⟨b2, hb2, hl2⟩ := ih h.2
      refine ⟨b1 ++ b2, ?_, ?_⟩
      · simp [utf8Encode, hb1, hb2]
      · simp [utf8Len_cons, hl1, hl2]

theorem utf8DecodeCp_encode (c : Nat) (h : validCp c = true) (bs rest : List Nat)
    (henc : utf8EncodeCp c = .ok bs) :
    utf8DecodeCp (bs ++ rest) = .ok (c, rest) := by
  have hv : c < 0x110000 ∧ ¬(0xD800 ≤ c ∧ c < 0xE000) := by
    simp only [validCp, Bool.and_eq_true, decide_eq_true_eq, Bool.not_eq_true',
      Bool.and_eq_false_iff, decide_eq_false_iff_not, not_lt] at h
    rcases h with ⟨h1, h2 | h2⟩ <;> exact ⟨h1, by omega⟩
  by_cases hc1 : c < 0x80
  · simp only [utf8EncodeCp, if_pos hc1, Except.ok.injEq] at henc
    subst henc
    simp only [List.cons_append, List.nil_append, utf8DecodeCp, if_pos hc1]
  · by_cases hc2 : c < 0x800
    · simp only [utf8EncodeCp, if_neg hc1, if_pos hc2, Except.ok.injEq] at henc
      subst henc
      simp only [List.cons_append, List.nil_append, utf8DecodeCp]
      rw [if_neg (by omega), if_neg (by omega), if_pos (by omega), if_pos (by omega)]
      have : (0xC0 + c / 64 - 0xC0) * 64 + (0x80 + c % 64 - 0x80) = c := by omega
      rw [this]
    · by_cases hc3 : c < 0x10000
      · simp only [utf8EncodeCp, if_neg hc1, if_neg hc2, if_pos hc3, if_neg hv.2,
          Except.ok.injEq] at henc
        subst henc
        simp only [List.cons_append, List.nil_append, utf8DecodeCp]
        rw [if_neg (by omega), if_neg (by omega), if_neg (by omega), if_pos (by omega),
          if_pos (by omega)]
        have : (0xE0 + c / 4096 - 0xE0) * 4096 + (0x80 + c / 64 % 64 - 0x80) * 64 +
            (0x80 + c % 64 - 0x80) = c := by omega
        rw [this]
      · simp only [utf8EncodeCp, if_neg hc1, if_neg hc2, if_neg hc3, if_pos hv.1,
          Except.ok.injEq] at henc
        subst henc
        simp only [List.cons_append, List.nil_append, utf8DecodeCp]
        rw [if_neg (by omega), if_neg (by omega), if_neg (by omega), if_neg (by omega),
          if_pos (by omega), if_pos (by omega)]
        have : (0xF0 + c / 262144 - 0xF0) * 262144 + (0x80 + c / 4096 % 64 - 0x80) * 4096 +
            (0x80 + c / 64 % 64 - 0x80) * 64 + (0x80 + c % 64 - 0x80) = c := by omega
        rw [this]

theorem utf8DecodeAux_encode (cps : List Nat) : ∀ (fuel : Nat) (bs : List Nat),
    cps.all validCp = true → utf8Encode cps = .ok bs → bs.length ≤ fuel →
    utf8DecodeAux fuel bs = .ok cps := by
  induction cps with
  | nil =>
      intro fuel bs _ henc _
      simp only [utf8Encode, Except.ok.injEq] at henc
      subst henc
      cases fuel <;> rfl
  | cons c cs ih =>
      intro fuel bs hall henc hfuel
      simp only [List.all_cons, Bool.and_eq_true] at hall
      obtain ⟨b1, hb1, hl1⟩ := utf8EncodeCp_ok c hall.1
      obtain ⟨b2, hb2, hl2⟩ := utf8Encode_ok cs hall.2
      simp only [utf8Encode, hb1, hb2, ok_bind, Except.ok.injEq] at henc
      subst henc
      have hpos : 1 ≤ b1.length := by
        rw [hl1]
        exact cpLen_pos c
      cases b1 with
      | nil => simp at hpos
      | cons b0 tl =>
          cases fuel with
          | zero => simp at hfuel
          | succ f =>
              have hdec : utf8DecodeCp ((b0 :: tl) ++ b2) = .ok (c, b2) :=
                utf8DecodeCp_encode c hall.1 (b0 :: tl) b2 hb1
              have hrec : utf8DecodeAux f b2 = .ok cs := by
                refine ih f b2 hall.2 hb2 ?_
                have hx : ((b0 :: tl) ++ b2).length ≤ f + 1 := hfuel
                simp only [List.length_append, List.length_cons] at hx
                omega
              rw [List.cons_append] at hdec
              simp only [List.cons_append, utf8DecodeAux, List.append_eq, hdec, ok_bind, hrec]

theorem pyDecode_encode (cps bs : List Nat) (hall : cps.all validCp = true)
    (henc : utf8Encode cps = .ok bs) : pyDecode bs = .ok cps :=
  utf8DecodeAux_encode cps bs.length bs hall henc (le_refl _)

theorem take_of_length_append {k : Nat} (l r : List Nat) (h : l.length = k) :
    (l ++ r).take k = l := by
  subst h
  exact take_len_append l r

theorem drop_of_length_append {k : Nat} (l r : List Nat) (h : l.length = k) :
    (l ++ r).drop k = r := by
  subst h
  exact drop_len_append l r

theorem utf8Encode_ascii (cps : List Nat) (h : cps.all (fun c => c < 0x80) = true) :
    utf8Encode cps = .ok cps := by
  induction cps with
  | nil => rfl
  | cons c cs ih =>
      simp only [List.all_cons, Bool.and_eq_true, decide_eq_true_eq] at h
      simp only [utf8Encode, utf8EncodeCp, if_pos h.1, ok_bind,
        ih (by simp only [List.all_eq_true] at h ⊢; exact fun x hx => h.2 x hx)]
      rfl

theorem ascii_valid (cps : List Nat) (h : cps.all (fun c => c < 0x80) = true) :
    cps.all validCp = true := by
  simp only [List.all_eq_true, decide_eq_true_eq] at h
  simp only [List.all_eq_true]
  intro x hx
  have := h x hx
  simp only [validCp, Bool.and_eq_true, decide_eq_true_eq, Bool.not_eq_true',
    Bool.and_eq_false_iff, decide_eq_false_iff_not, not_lt, not_le]
  exact ⟨by omega, Or.inl (by omega)⟩

theorem typeRoundtrip (t : FType) : ∀ (v : Value), validEnc t v = true →
    ∃ enc, typeToBytes t v = .ok enc ∧
      ∀ rest, typeFromBytes t (enc ++ rest) = .ok (v, rest) := by
  induction t with
  | intT w signed =>
      intro v hv
      cases v with
      | int n => exact int_roundtrip w signed n hv
      | str _ => simp [validEnc] at hv
      | bytes _ => simp [validEnc] at hv
      | list _ => simp [validEnc] at hv
      | none => simp [validEnc] at hv
  | charT =>
      intro v hv
      cases v with
      | bytes l =>
          match l with
          | [b] =>
              refine ⟨[b], by simp [typeToBytes], fun rest => ?_⟩
              simp [typeFromBytes]
          | [] => simp [validEnc] at hv
          | _ :: _ :: _ => simp [validEnc] at hv
      | int _ => simp [validEnc] at hv
      | str _ => simp [validEnc] at hv
      | list _ => simp [validEnc] at hv
      | none => simp [validEnc] at hv
  | stringT l =>
      intro v hv
      cases v with
      | str cps =>
          by_cases ht : truthyLen l = true
          · simp only [validEnc, if_pos ht, Bool.and_eq_true, beq_iff_eq] at hv
            obtain ⟨hall, hklen⟩ := hv
            obtain ⟨enc, henc, hlen⟩ := utf8Encode_ok cps hall
            have hK : enc.length = l.getD 0 := by rw [hlen, hklen]
            refine ⟨enc, ?_, fun rest => ?_⟩
            · simp only [typeToBytes, if_pos ht, henc, ok_bind]
              rw [show enc.take (l.getD 0) = enc from by rw [← hK]; exact List.take_length enc]
              rw [show l.getD 0 - enc.length = 0 from by omega]
              simp
            · simp only [typeFromBytes, if_pos ht, take_of_length_append enc rest hK,
                drop_of_length_append enc rest hK, pyDecode_encode cps enc hall henc, ok_bind]
          · simp only [validEnc, if_neg ht, Bool.and_eq_true, decide_eq_true_eq] at hv
            obtain ⟨hascii, hlt⟩ := hv
            have henc : utf8Encode cps = .ok cps := utf8Encode_ascii cps hascii
            refine ⟨leBytes 4 cps.length ++ cps, ?_, fun rest => ?_⟩
            · simp only [typeToBytes, if_neg ht, henc, ok_bind, if_pos hlt,
                List.take_length, Nat.sub_self, List.replicate_zero, List.append_nil]
            · have h4 : (leBytes 4 cps.length).length = 4 := leBytes_length 4 _
              have hm : leValue (leBytes 4 cps.length) = cps.length :=
                leValue_leBytes 4 cps.length (by omega)
              simp only [List.append_assoc, typeFromBytes, if_neg ht,
                take_of_length_append _ _ h4, drop_of_length_append _ _ h4, hm, h4]
              rw [if_pos trivial, if_neg (by omega)]
              simp only [readPy, Int.toNat_natCast]
              rw [if_neg (by omega)]
              simp only [take_of_length_append cps rest rfl, drop_of_length_append cps rest rfl,
                pyDecode_encode cps cps (ascii_valid cps hascii) henc]
      | int _ => simp [validEnc] at hv
      | bytes _ => simp [validEnc] at hv
      | list _ => simp [validEnc] at hv
      | none => simp [validEnc] at hv
  | arrayT e l ih =>
      intro v hv
      cases v with
      | list vs =>
          have seqRT : ∀ vs2 : List Value, vs2.all (validEnc e) = true →
              ∃ enc, encodeSeq (typeToBytes e) vs2 = .ok enc ∧
                ∀ rest, decodeMany (typeFromBytes e) vs2.length (enc ++ rest) = .ok (vs2, rest) := by
            intro vs2
            induction vs2 with
            | nil => exact fun _ => ⟨[], rfl, fun rest => by simp [decodeMany]⟩
            | cons x xs ihx =>
                intro hall
                simp only [List.all_cons, Bool.and_eq_true] at hall
                obtain ⟨e1, he1, hd1⟩ := ih x hall.1
                obtain ⟨e2, he2, hd2⟩ := ihx hall.2
                refine ⟨e1 ++ e2, ?_, fun rest => ?_⟩
                · simp [encodeSeq, he1, he2]
                · simp only [List.length_cons, decodeMany, List.append_assoc, hd1 (e2 ++ rest),
                    ok_bind, hd2 rest]
          by_cases ht : truthyLen l = true
          · simp only [validEnc, if_pos ht, Bool.and_eq_true, beq_iff_eq] at hv
            obtain ⟨hklen, hall⟩ := hv
            obtain ⟨enc, henc, hdec⟩ := seqRT vs hall
            refine ⟨enc, ?_, fun rest => ?_⟩
            · simp only [typeToBytes]
              rw [if_neg (fun hcon => hcon.2 hklen)]
              simp only [henc, ok_bind, if_pos ht]
            · simp only [typeFromBytes, if_pos ht, ← hklen, hdec rest, ok_bind]
          · simp only [validEnc, if_neg ht, Bool.and_eq_true, decide_eq_true_eq] at hv
            obtain ⟨hlt, hall⟩ := hv
            obtain ⟨enc, henc, hdec⟩ := seqRT vs hall
            refine ⟨leBytes 4 vs.length ++ enc, ?_, fun rest => ?_⟩
            · simp only [typeToBytes]
              rw [if_neg (fun hcon => ht hcon.1)]
              simp only [henc, ok_bind, if_neg ht, if_pos hlt]
            · have h4 : (leBytes 4 vs.length).length = 4 := leBytes_length 4 _
              have hm : leValue (leBytes 4 vs.length) = vs.length :=
                leValue_leBytes 4 vs.length (by omega)
              simp only [List.append_assoc, typeFromBytes, if_neg ht,
                take_of_length_append _ _ h4, drop_of_length_append _ _ h4, hm, h4]
              rw [if_pos trivial, if_neg (by omega)]
              simp only [Int.toNat_natCast, hdec rest]
      | int _ => simp [validEnc] at hv
      | str _ => simp [validEnc] at hv
      | bytes _ => simp [validEnc] at hv
      | none => simp [validEnc] at hv
  | paddingT k =>
      intro v hv
      simp [validEnc] at hv
  | ptrT e ih =>
      intro v hv
      simp [validEnc] at hv
  | refT e ih =>
      intro v hv
      simp [validEnc] at hv

theorem structRoundtripCore (inst : String → Option Value) :
    ∀ (fields : List (String × FType)),
    (∀ p ∈ fields, (inst p.1).isSome ∧ validEnc p.2 ((inst p.1).getD .none) = true) →
    ∃ bs, structToBytesCore fields inst = .ok bs ∧
      structFromBytes fields bs = .ok (fields.map fun p => (p.1, (inst p.1).getD .none)) := by
  intro fields
  induction fields with
  | nil => exact fun _ => ⟨[], rfl, rfl⟩
  | cons p fs ih =>
      intro hval
      obtain ⟨nm, t⟩ := p
      obtain ⟨hs, hv⟩ := hval (nm, t) (List.mem_cons_self _ _)
      obtain ⟨enc, henc, hdec⟩ := typeRoundtrip t _ hv
      obtain ⟨bs2, hbs2, hfrom⟩ := ih (fun q hq => hval q (List.mem_cons_of_mem _ hq))
      refine ⟨enc ++ bs2, ?_, ?_⟩
      · simp only [structToBytesCore, henc, hbs2, ok_bind]
      · simp only [structFromBytes, hdec bs2, ok_bind, hfrom, List.map_cons]

/-- C1 (counterexample): the claim `T.from_bytes(x.to_bytes()) == x` fails as
stated.  The one-field struct `{name : String[2]}` accepts the instance
`name = "a"` (`String.accepts` takes every `str`), `to_bytes` zero-pads the
encoding to 2 bytes, and `from_bytes` returns the padded string `"a\x00"`,
which differs from the original instance. -/
theorem c1_counterexample :
    structToBytes [("name", FType.stringT (some 2))] (fun _ => some (.str [97])) = .ok [97, 0] ∧
    structFromBytes [("name", FType.stringT (some 2))] [97, 0] =
      .ok [("name", Value.str [97, 0])] ∧
    ¬ structFromBytes [("name", FType.stringT (some 2))] [97, 0] =
        .ok [("name", Value.str [97])] := by
  refine ⟨?_, ?_, ?_⟩ <;> decide

/-- C1 (amended): for every declared struct whose fields all report a fixed
size and every instance in which each field holds a value its type encodes
exactly — integers in the format's range, one-byte values for `char`, fixed
strings whose UTF-8 encoding is exactly the declared byte count, arrays with
the declared element count of such values, and no `Padding`/`ptr`/`ref`
fields — decoding the encoding reconstructs every field's value:
`from_bytes(to_bytes(x))` assigns to each field exactly the value it held. -/
theorem c1_struct_roundtrip (fields : List (String × FType)) (inst : String → Option Value)
    (_hfix : ∀ p ∈ fields, p.2.isDynamicSize = false)
    (hval : ∀ p ∈ fields, (inst p.1).isSome ∧ validEnc p.2 ((inst p.1).getD .none) = true) :
    ∃ bs, structToBytes fields inst = .ok bs ∧
      structFromBytes fields bs = .ok (fields.map fun p => (p.1, (inst p.1).getD .none)) := by
  obtain ⟨bs, h1, h2⟩ := structRoundtripCore inst fields hval
  refine ⟨bs, ?_, h2⟩
  simp only [structToBytes, h1]

/-- C1 (witness): the amended round-trip applied to the concrete struct
`{age : i8, name : String[3]}` holding `age = 42`, `name = "Joe"`. -/
theorem c1_struct_roundtrip_witness :
    (∀ p ∈ [("age", i8), ("name", FType.stringT (some 3))],
      (Prod.snd p).isDynamicSize = false) ∧
    (∃ bs,
      structToBytes [("age", i8), ("name", FType.stringT (some 3))]
        (fun nm => if nm = "age" then some (.int 42)
          else if nm = "name" then some (.str [74, 111, 101]) else Option.none) = .ok bs ∧
      structFromBytes [("age", i8), ("name", FType.stringT (some 3))] bs =
        .ok ([("age", i8), ("name", FType.stringT (some 3))].map fun p =>
          (p.1, ((fun nm => if nm = "age" then some (.int 42)
            else if nm = "name" then some (.str [74, 111, 101]) else Option.none) p.1).getD
              .none))) :=
  ⟨by decide, c1_struct_roundtrip _ _ (by decide) (by decide)⟩

/-- C2 (counterexample): decoding a `ptr[i8]` field does not yield the encoded
machine-word integer.  Encoding address 300 writes the 8-byte word
`2C 01 00 00 00 00 00 00`; decoding runs `i8.from_bytes`, consumes one byte
and returns 44, not 300. -/
theorem c2_counterexample :
    typeToBytes (.ptrT i8) (.int 300) = .ok [44, 1, 0, 0, 0, 0, 0, 0] ∧
    typeFromBytes (.ptrT i8) [44, 1, 0, 0, 0, 0, 0, 0] =
      .ok (.int 44, [1, 0, 0, 0, 0, 0, 0]) ∧
    ¬ (Value.int 44 = Value.int 300) := by
  refine ⟨?_, ?_, ?_⟩ <;> decide

/-- C2 (amended): `Pointer.from_bytes` and `Reference.from_bytes` delegate to
the element type's decoder at the reader's current position, yielding a
decoded `E` value rather than the encoded address, while `to_bytes` writes
the address as an 8-byte little-endian machine word. -/
theorem c2_ptr_decode (e : FType) (bs : List Nat) (a : Int)
    (h : 0 ≤ a ∧ a < 2 ^ 64) :
    typeFromBytes (.ptrT e) bs = typeFromBytes e bs ∧
    typeFromBytes (.refT e) bs = typeFromBytes e bs ∧
    typeToBytes (.ptrT e) (.int a) = .ok (leBytes 8 a.toNat) ∧
    typeToBytes (.refT e) (.int a) = .ok (leBytes 8 a.toNat) := by
  refine ⟨rfl, rfl, ?_, ?_⟩ <;>
    · simp only [typeToBytes]
      rw [if_pos h]

/-- C2 (witness): the delegation equations applied to `ptr[i8]`, `ref[i8]`
with stream `2C 01` and address 300. -/
theorem c2_ptr_decode_witness :
    ((0 : Int) ≤ 300 ∧ (300 : Int) < 2 ^ 64) ∧
    (typeFromBytes (.ptrT i8) [44, 1] = typeFromBytes i8 [44, 1] ∧
     typeFromBytes (.refT i8) [44, 1] = typeFromBytes i8 [44, 1] ∧
     typeToBytes (.ptrT i8) (.int 300) = .ok (leBytes 8 (Int.toNat 300)) ∧
     typeToBytes (.refT i8) (.int 300) = .ok (leBytes 8 (Int.toNat 300))) :=
  ⟨by decide, c2_ptr_decode i8 [44, 1] 300 (by decide)⟩

/-- C3 (evaluation at the failing input): `Array.size` returns the raw
element count, so `i32[4]` reports size 4, not `4 * size(i32) = 16`, and an
array of a dynamic element type, `Array[String][3]`, reports 3 rather than
the DYNAMIC marker `-1`. -/
theorem c3_array_size_eval :
    sizeF (.arrayT i32 (some 4)) = 4 ∧ sizeF i32 = 4 ∧ ¬ ((4 : Int) = 4 * 4) ∧
    sizeF (.arrayT (.stringT Option.none) (some 3)) = 3 ∧
    (FType.stringT Option.none).isDynamicSize = true ∧ ¬ ((3 : Int) = -1) := by
  refine ⟨?_, ?_, ?_, ?_, ?_, ?_⟩ <;> decide

/-- C5 (evaluation at the failing input): the flag-to-boundary computation
`1 << (flags & AlignmentMask)` maps `Align1Byte`, `Align2Bytes`,
`Align4Bytes` to boundaries 1, 2 and 4 but maps `Align8Bytes` (bit value 4)
to `1 << 4 = 16`, not the 8-byte boundary its docstring and the claim
require. -/
theorem c5_alignment_flags_eval :
    alignmentFromFlags align1Byte = 1 ∧ alignmentFromFlags align2Bytes = 2 ∧
    alignmentFromFlags align4Bytes = 4 ∧ alignmentFromFlags align8Bytes = 16 ∧
    ¬ alignmentFromFlags align8Bytes = 8 := by
  refine ⟨?_, ?_, ?_, ?_, ?_⟩ <;> decide

/-- C6 (evaluation at the failing input): aligning the fields
`(a : i16, b : i32)` on an 8-byte boundary inserts the inter-field
`Padding[6]` but appends no trailing padding, because `__pad_to_alignment`
consults the stale `_size` attribute (still 0 before any `build`); the built
struct ends at size 12, which is not a multiple of 8. -/
theorem c6_no_trailing_padding_eval :
    (((Builder.start.addFields [("a", i16), ("b", i32)]).alignFields (some 8)).build.fields.map
        fun f => (f.name, sizeF f.type, f.offset)) =
      [("a", 2, 0), ("__pad_0__", 6, 2), ("b", 4, 8)] ∧
    ((Builder.start.addFields [("a", i16), ("b", i32)]).alignFields (some 8)).build.size = 12 ∧
    ¬ ((12 : Int) % 8 = 0) := by
  refine ⟨?_, ?_, ?_⟩ <;> decide

/-- C9 (evaluation at the failing input): `to_bytes` with an unset `i8` field
passes `None` into `struct.pack`, which raises `struct.error` — not the
`ValueError` the claim promises.  Only types whose encoder touches a missing
attribute (here `String[3]`, via `None.encode`) produce the advertised
`ValueError`. -/
theorem c9_uninitialized_eval :
    structToBytes [("a", i8)] (fun _ => Option.none) = .error .structError ∧
    ¬ structToBytes [("a", i8)] (fun _ => Option.none) = .error .valueError ∧
    structToBytes [("s", FType.stringT (some 3))] (fun _ => Option.none) = .error .valueError := by
  refine ⟨?_, ?_, ?_⟩ <;> decide

/-- C10: `String[0]` and a fixed-length array of length 0 degrade to the
length-prefixed (dynamic) variant: the `__length__` of 0 is falsy, so `size`
reports the DYNAMIC marker `-1` and `to_bytes`/`from_bytes` behave exactly
like the unsized type, writing and reading a 4-byte length prefix. -/
theorem c10_zero_length_degrades :
    sizeF (.stringT (some 0)) = -1 ∧ sizeF (.stringT Option.none) = -1 ∧
    (∀ v, typeToBytes (.stringT (some 0)) v = typeToBytes (.stringT Option.none) v) ∧
    (∀ bs, typeFromBytes (.stringT (some 0)) bs = typeFromBytes (.stringT Option.none) bs) ∧
    (∀ e : FType, sizeF (.arrayT e (some 0)) = -1) ∧
    (∀ e v, typeToBytes (.arrayT e (some 0)) v = typeToBytes (.arrayT e Option.none) v) ∧
    (∀ e bs, typeFromBytes (.arrayT e (some 0)) bs = typeFromBytes (.arrayT e Option.none) bs) ∧
    typeToBytes (.stringT (some 0)) (.str [97, 98]) = .ok [2, 0, 0, 0, 97, 98] := by
  refine ⟨by decide, by decide, fun v => rfl, fun bs => rfl, fun e => rfl,
    fun e v => rfl, fun e bs => rfl, by decide⟩

theorem sizeF_pos (t : FType) (hwf : wellFormed t = true) (hfix : t.isDynamicSize = false) :
    1 ≤ sizeF t := by
  cases t with
  | intT w signed =>
      simp only [wellFormed, Bool.or_eq_true, beq_iff_eq] at hwf
      simp only [sizeF]
      omega
  | charT => simp [sizeF]
  | stringT l =>
      simp only [FType.isDynamicSize, beq_eq_false_iff_ne, ne_eq, sizeF] at hfix
      cases l with
      | none => simp [lenOrDynamic, truthyLen] at hfix
      | some k =>
          by_cases hk : k = 0
          · subst hk; simp [lenOrDynamic, truthyLen] at hfix
          · simp only [sizeF, lenOrDynamic, truthyLen]
            rw [if_pos (by simpa using hk)]
            simp only [Option.getD_some]
            omega
  | arrayT e l =>
      simp only [FType.isDynamicSize, beq_eq_false_iff_ne, ne_eq, sizeF] at hfix
      cases l with
      | none => simp [lenOrDynamic, truthyLen] at hfix
      | some k =>
          by_cases hk : k = 0
          · subst hk; simp [lenOrDynamic, truthyLen] at hfix
          · simp only [sizeF, lenOrDynamic, truthyLen]
            rw [if_pos (by simpa using hk)]
            simp only [Option.getD_some]
            omega
  | paddingT k =>
      simp only [wellFormed, decide_eq_true_eq] at hwf
      simp only [sizeF]
      omega
  | ptrT e => simp [sizeF]
  | refT e => simp [sizeF]

theorem assignOffsets_chain : ∀ (fs : List BField) (off : Int),
    List.Chain' (fun f g => g.offset = f.offset + sizeF f.type) (assignOffsets off fs)
  | [], _ => List.chain'_nil
  | [f], off => by simp [assignOffsets]
  | f :: g :: gs, off => by
      simp only [assignOffsets]
      exact List.chain'_cons.mpr
        ⟨rfl, by simpa [assignOffsets] using assignOffsets_chain (g :: gs) (off + sizeF f.type)⟩

theorem assignOffsets_chain_lt : ∀ (fs : List BField) (off : Int),
    (∀ f ∈ fs, 1 ≤ sizeF f.type) →
    List.Chain' (fun f g => f.offset < g.offset) (assignOffsets off fs)
  | [], _, _ => List.chain'_nil
  | [f], off, _ => by simp [assignOffsets]
  | f :: g :: gs, off, h => by
      simp only [assignOffsets]
      refine List.chain'_cons.mpr ⟨?_, ?_⟩
      · have := h f (List.mem_cons_self _ _)
        simp only
        omega
      · simpa [assignOffsets] using
          assignOffsets_chain_lt (g :: gs) (off + sizeF f.type)
            (fun x hx => h x (List.mem_cons_of_mem _ hx))

/-- C4: building a layout over all-fixed-size fields assigns each field the
offset of its predecessor plus the predecessor's size, the offsets are
strictly increasing, and the reported total size is the sum of all field
sizes (synthetic padding fields included, since they are ordinary entries of
the field list). -/
theorem c4_build_layout (b : Builder)
    (hwf : ∀ f ∈ b.fields, wellFormed f.type = true)
    (hfix : ∀ f ∈ b.fields, f.type.isDynamicSize = false)
    (hdyn : b.hasDynamic = false) :
    List.Chain' (fun f g => g.offset = f.offset + sizeF f.type) b.build.fields ∧
    List.Pairwise (fun f g => f.offset < g.offset) b.build.fields ∧
    b.build.size = (b.build.fields.map fun f => sizeF f.type).sum := by
  have hfields : b.build.fields = assignOffsets 0 b.fields := by
    simp [Builder.build, Builder.recalcSize, hdyn]
  have hsizes : ∀ f ∈ b.fields, 1 ≤ sizeF f.type := fun f hf =>
    sizeF_pos f.type (hwf f hf) (hfix f hf)
  haveI : IsTrans BField (fun f g => f.offset < g.offset) :=
    ⟨fun _ _ _ h1 h2 => lt_trans h1 h2⟩
  refine ⟨?_, ?_, ?_⟩
  · rw [hfields]
    exact assignOffsets_chain b.fields 0
  · rw [hfields]
    exact List.chain'_iff_pairwise.mp (assignOffsets_chain_lt b.fields 0 hsizes)
  · simp [Builder.build, Builder.recalcSize, hdyn]

/-- C4 (witness): the layout invariants at the concrete builder holding
`(a : i8, b : i32)`. -/
theorem c4_build_layout_witness :
    (Builder.start.addFields [("a", i8), ("b", i32)]).hasDynamic = false ∧
    List.Pairwise (fun f g => f.offset < g.offset)
      (Builder.start.addFields [("a", i8), ("b", i32)]).build.fields ∧
    (Builder.start.addFields [("a", i8), ("b", i32)]).build.size =
      ((Builder.start.addFields [("a", i8), ("b", i32)]).build.fields.map fun f =>
        sizeF f.type).sum :=
  ⟨rfl, (c4_build_layout _ (by decide) (by decide) rfl).2.1,
    (c4_build_layout _ (by decide) (by decide) rfl).2.2⟩

theorem filter_orderedInsert_sizeEq (s : Int) (f : BField) :
    ∀ l : List BField,
      (List.orderedInsert bySizeDesc f l).filter (fun g => sizeF g.type == s) =
        if sizeF f.type == s then f :: l.filter (fun g => sizeF g.type == s)
        else l.filter (fun g => sizeF g.type == s)
  | [] => by
      by_cases hp : sizeF f.type == s <;> simp [List.orderedInsert, List.filter, hp]
  | g :: gs => by
      by_cases hr : bySizeDesc f g
      · rw [List.orderedInsert_of_le bySizeDesc gs hr]
        by_cases hp : sizeF f.type == s <;> simp [List.filter, hp]
      · have hgt : sizeF f.type < sizeF g.type := by
          simp only [bySizeDesc, not_le] at hr
          exact hr
        simp only [List.orderedInsert, if_neg hr]
        by_cases hp : sizeF f.type == s
        · have hgne : (sizeF g.type == s) = false := by
            simp only [beq_iff_eq] at hp ⊢
            simp only [beq_eq_false_iff_ne, ne_eq]
            omega
          simp only [List.filter, hgne, filter_orderedInsert_sizeEq s f gs, if_pos hp, hp]
        · simp only [List.filter, filter_orderedInsert_sizeEq s f gs, if_neg hp]

theorem insertionSort_filter_sizeEq (s : Int) :
    ∀ l : List BField,
      (List.insertionSort bySizeDesc l).filter (fun g => sizeF g.type == s) =
        l.filter (fun g => sizeF g.type == s)
  | [] => rfl
  | f :: l => by
      simp only [List.insertionSort, filter_orderedInsert_sizeEq s f,
        insertionSort_filter_sizeEq s l]
      by_cases hp : sizeF f.type == s <;> simp [List.filter, hp]

/-- C7: `reorder_fields` produces exactly the fixed-size fields stably sorted
by descending size followed by the dynamic fields in declaration order: the
sorted block is a permutation of the fixed-size fields, its sizes are
non-increasing, and for every size value the fields of exactly that size
keep their original relative order. -/
theorem c7_reorder_fields (b : Builder) :
    b.reorderFields.fields =
      List.insertionSort bySizeDesc (b.fields.filter fun f => ¬ f.type.isDynamicSize) ++
        b.fields.filter (fun f => f.type.isDynamicSize) ∧
    List.Perm
      (List.insertionSort bySizeDesc (b.fields.filter fun f => ¬ f.type.isDynamicSize))
      (b.fields.filter fun f => ¬ f.type.isDynamicSize) ∧
    List.Pairwise bySizeDesc
      (List.insertionSort bySizeDesc (b.fields.filter fun f => ¬ f.type.isDynamicSize)) ∧
    ∀ s : Int,
      (List.insertionSort bySizeDesc (b.fields.filter fun f => ¬ f.type.isDynamicSize)).filter
          (fun g => sizeF g.type == s) =
        (b.fields.filter fun f => ¬ f.type.isDynamicSize).filter
          (fun g => sizeF g.type == s) :=
  ⟨rfl, List.perm_insertionSort bySizeDesc _,
    List.sorted_insertionSort bySizeDesc _,
    fun s => insertionSort_filter_sizeEq s _⟩

theorem allAccepts_shape (f : Value → Except Err Bool)
    (hf : ∀ v, f v = .ok true ∨ f v = .ok false ∨ f v = .error .typeError) :
    ∀ vs : List Value, allAccepts f vs = .ok true ∨ allAccepts f vs = .ok false ∨
      allAccepts f vs = .error .typeError
  | [] => Or.inl rfl
  | v :: vs => by
      rcases hf v with h | h | h
      · simpa [allAccepts, h] using allAccepts_shape f hf vs
      · simp [allAccepts, h]
      · simp [allAccepts, h]

theorem acceptsE_shape (t : FType) (hsafe : domainSafe t = true) :
    ∀ v, acceptsE t v = .ok true ∨ acceptsE t v = .ok false ∨
      acceptsE t v = .error .typeError := by
  induction t with
  | intT w signed =>
      intro v
      cases v <;> simp [acceptsE]
  | charT =>
      intro v
      cases v <;> simp [acceptsE]
  | stringT l =>
      intro v
      cases v <;> simp [acceptsE]
  | arrayT e l ih =>
      have hsafeE : domainSafe e = true := by simpa [domainSafe] using hsafe
      intro v
      cases v with
      | list vs => exact allAccepts_shape _ (ih hsafeE) vs
      | str cps => exact allAccepts_shape _ (ih hsafeE) _
      | bytes bs => exact allAccepts_shape _ (ih hsafeE) _
      | int _ => simp [acceptsE]
      | none => simp [acceptsE]
  | paddingT k => simp [domainSafe] at hsafe
  | ptrT e ih => simp [domainSafe] at hsafe
  | refT e ih => simp [domainSafe] at hsafe

/-- C8 (counterexample): assigning the integer 5 to a field of type `ptr[i8]`
does not raise the promised type-mismatch `TypeError`: `Pointer` never sets
the `__type__` attribute that `Primitive.__is_instance__` reads, so the
`isinstance` check raises `AttributeError` instead (and no value at all is
accepted for such a field). -/
theorem c8_counterexample :
    setStructField (fun _ => Option.none) "p" (.ptrT i8) (.int 5) = .error .attributeError ∧
    ¬ (Err.attributeError = Err.typeError) := ⟨rfl, by decide⟩

/-- C8 (amended): for every field whose type has a defined instance check —
the primitives, strings, and arrays over such types, but not
`Padding`/`ptr`/`ref` — an assignment through `StructField.__set__` stores
the value exactly when `accepts` returns true, and otherwise fails with
`TypeError`; the stored value is readable back from the instance under the
field's name.  (The dispatch of every attribute assignment through the
descriptor is the declaration surface missing from the sources and is
modelled after the spec.) -/
theorem c8_set_field (t : FType) (v : Value) (inst : String → Option Value) (nm : String)
    (hsafe : domainSafe t = true) :
    (acceptsE t v = .ok true →
      ∃ inst2, setStructField inst nm t v = .ok inst2 ∧ inst2 nm = some v) ∧
    (¬ acceptsE t v = .ok true → setStructField inst nm t v = .error .typeError) := by
  constructor
  · intro hacc
    refine ⟨fun n => if n = nm then some v else inst n, ?_, by simp⟩
    simp [setStructField, hacc]
  · intro hacc
    rcases acceptsE_shape t hsafe v with h | h | h
    · exact absurd h hacc
    · simp [setStructField, h]
    · simp [setStructField, h]

/-- C8 (witness): assigning the string `"hi"` to a `String`-typed field
stores it; the hypotheses are discharged at this concrete field. -/
theorem c8_set_field_witness :
    domainSafe (FType.stringT Option.none) = true ∧
    (∃ inst2,
      setStructField (fun _ => Option.none) "name" (FType.stringT Option.none)
        (.str [104, 105]) = .ok inst2 ∧ inst2 "name" = some (.str [104, 105])) :=
  ⟨rfl, (c8_set_field (FType.stringT Option.none) (.str [104, 105])
    (fun _ => Option.none) "name" rfl).1 (by decide)⟩
